import Mathlib

/-!
Verification of the `ccuse` profile store and sync/merge engine.

Shallow embedding of the Rust sources of the `ccuse` profile manager:

* `src/config/profile.rs` — the `Profile` data record;
* `src/config/storage.rs` — the index-file based profile store
  (`ccuse.json` index plus one `settings.json` per profile);
* `src/db/ccswitch.rs` — the external-source adapter
  (`parse_provider_config`, `get_profiles`);
* `src/cli/commands/update_cmd.rs` — the sync/merge engine
  (`update_profiles`);
* `src/cli/commands/rename_cmd.rs` — `rename_profile`;
* `src/cli/commands/add_cmd.rs` — the tail of the interactive `add_profile`
  command (validation and index write after the external editor ran).

Modelling conventions:

* Rust `String` is modelled as `List Char`; the single-character
  replacement `name.replace(' ', "_")` becomes a `List.map`.
* The filesystem state touched by the store is modelled by `FS`:
  the optional content of the `ccuse.json` index file together with an
  association list from profile directory name to the state of the
  `settings.json` file inside it (`absent` = directory exists without a
  settings file, `corrupt` = the file does not deserialize as a `Profile`,
  `good p` = the file holds the serialization of `p`).  A name missing
  from the list means the directory does not exist.
* `serde` / SQLite are external collaborators: a row's `settings_config`
  is modelled by the parse result `Option ProviderConfig` (`none` =
  unparsable JSON), and a settings file by `FileState`.
* Filesystem I/O failures (permission denied, disk full) are outside the
  model: reads and writes that cannot fail for data reasons are total.
* Timestamps (`chrono::DateTime<Utc>`) are modelled as integers
  (milliseconds since epoch); no claim depends on their structure.
-/

namespace Ccuse

/-- Rust `String`, as a list of characters. -/
abbrev Name := List Char

/-- Model of `name.replace(' ', "_")` for the one-character pattern used by the
code: every space character becomes an underscore. -/
def norm (s : Name) : Name :=
  s.map (fun ch => if ch = ' ' then '_' else ch)

/-- Model of `HashMap<String, String>` of environment variables.  The claims only
inspect emptiness and whole-value equality, for which the association
list representation is adequate. -/
abbrev EnvMap := List (Name × Name)

/-- Model of `McpPermission` from `src/config/profile.rs`. -/
structure McpPermission where
  name : Name
  enabled : Option Bool
deriving DecidableEq, Repr

/-- Model of `Permissions` from `src/config/profile.rs`. -/
structure Permissions where
  enabled : Option Bool
  mcp : Option (List McpPermission)
  command : Option (List Name)
deriving DecidableEq, Repr

instance : Inhabited Permissions := ⟨⟨none, none, none⟩⟩

/-- Model of `ProfileSource` from `src/config/profile.rs`. -/
inductive ProfileSource where
  | ccSwitch
  | manual
deriving DecidableEq, Repr

/-- Model of `Profile` from `src/config/profile.rs`. -/
structure Profile where
  name : Name
  display_name : Option Name
  env : EnvMap
  permissions : Permissions
  enabled_plugins : Option (List (Name × Bool))
  always_thinking_enabled : Option Bool
  api_timeout_ms : Option Nat
  category : Option Name
  source : Option ProfileSource
  created_at : Int
  updated_at : Int
deriving DecidableEq, Repr

/-- The error taxonomy of `src/error/mod.rs`, restricted to the variants
the modelled code can produce (I/O and database errors are outside the
model). -/
inductive Err where
  | profileNotFound (n : Name)
  | profileAlreadyExists (n : Name)
  | ccSwitchReadError
  | configError
  | jsonError
deriving DecidableEq, Repr

instance {ε α : Type} [DecidableEq ε] [DecidableEq α] : DecidableEq (Except ε α) :=
  fun x y =>
    match x, y with
    | .ok a, .ok b =>
      if h : a = b then .isTrue (by simp [h]) else .isFalse (by simp [h])
    | .error a, .error b =>
      if h : a = b then .isTrue (by simp [h]) else .isFalse (by simp [h])
    | .ok _, .error _ => .isFalse (by simp)
    | .error _, .ok _ => .isFalse (by simp)

/-- State of a profile directory's `settings.json`. -/
inductive FileState where
  | absent
  | corrupt
  | good (p : Profile)
deriving DecidableEq, Repr

/-- The part of the filesystem owned by the store: the optional content of
the `ccuse.json` index file, plus the profile directories (keyed by
directory name; a key missing from the list means the directory does not
exist). -/
structure FS where
  index : Option (List Name)
  dirs : List (Name × FileState)
deriving DecidableEq, Repr

/-- Content of the settings file in directory `n`, if that directory
exists. -/
def lookupDir (dirs : List (Name × FileState)) (n : Name) : Option FileState :=
  (dirs.find? (fun e => e.1 == n)).map (fun e => e.2)

/-- Write the settings file in directory `n` (creating the directory if
needed): `fs::create_dir_all` + `fs::write`. -/
def dirsSet (dirs : List (Name × FileState)) (n : Name) (st : FileState) :
    List (Name × FileState) :=
  dirs.filter (fun e => !(e.1 == n)) ++ [(n, st)]

/-- Model of `fs::remove_dir_all` on directory `n`. -/
def dirsRemove (dirs : List (Name × FileState)) (n : Name) :
    List (Name × FileState) :=
  dirs.filter (fun e => !(e.1 == n))

/-! ## `src/config/storage.rs` -/

/-- Model of `Storage::load_profile_names`: the index file's content, or `[]` when
the file does not exist. -/
def load_profile_names (fs : FS) : List Name :=
  fs.index.getD []

/-- Model of `Storage::load_profile_from_file`: error if the settings file is
missing (`ProfileNotFound`) or fails to deserialize (`serde` error). -/
def load_profile_from_file (fs : FS) (n : Name) : Except Err Profile :=
  match lookupDir fs.dirs n with
  | some (.good p) => .ok p
  | some .corrupt => .error .jsonError
  | some .absent => .error (.profileNotFound n)
  | none => .error (.profileNotFound n)

/-- Model of `Storage::save_profile_to_file`: ensure the profile directory exists
and write the serialized profile to its `settings.json`. -/
def save_profile_to_file (fs : FS) (p : Profile) : FS :=
  { fs with dirs := dirsSet fs.dirs p.name (.good p) }

/-- Model of `Storage::load_profiles`: iterate the index, skipping (with a warning)
profiles that fail to load. -/
def load_profiles (fs : FS) : List Profile :=
  (load_profile_names fs).filterMap (fun n => (load_profile_from_file fs n).toOption)

/-- Model of `Storage::save_profiles`: write every profile's settings file, then
rewrite the index with exactly the profiles' names, in order. -/
def save_profiles (fs : FS) (ps : List Profile) : FS :=
  let fs1 := ps.foldl save_profile_to_file fs
  { fs1 with index := some (ps.map (fun p => p.name)) }

/-- Model of `Storage::get_profile`: absence when the name is not indexed; when it
is indexed, a failed file read degrades to absence instead of an error. -/
def get_profile (fs : FS) (n : Name) : Except Err (Option Profile) :=
  let names := load_profile_names fs
  if !(names.contains n) then .ok none
  else
    match load_profile_from_file fs n with
    | .ok p => .ok (some p)
    | .error _ => .ok none

/-- Model of `Storage::add_profile`. -/
def add_profile (fs : FS) (p : Profile) : Except Err FS :=
  let names := load_profile_names fs
  if names.contains p.name then .error (.profileAlreadyExists p.name)
  else
    let fs1 := save_profile_to_file fs p
    .ok { fs1 with index := some (names ++ [p.name]) }

/-- Model of `Storage::update_profile`. -/
def update_profile (fs : FS) (p : Profile) : Except Err FS :=
  let names := load_profile_names fs
  if !(names.contains p.name) then .error (.profileNotFound p.name)
  else .ok (save_profile_to_file fs p)

/-- Model of `Storage::remove_profile`. -/
def remove_profile (fs : FS) (n : Name) : Except Err FS :=
  let names := load_profile_names fs
  let names1 := names.filter (fun m => !(m == n))
  if names1.length = names.length then .error (.profileNotFound n)
  else .ok { index := some names1, dirs := dirsRemove fs.dirs n }

/-- Model of `Storage::remove_all_profiles`: delete every indexed profile's
directory, then delete the index file itself. -/
def remove_all_profiles (fs : FS) : FS :=
  { index := none
    dirs := (load_profile_names fs).foldl (fun d n => dirsRemove d n) fs.dirs }

/-! ## `src/db/ccswitch.rs` — external source adapter -/

/-- The `ProviderConfig` deserialization target embedded in
`CcSwitchDb::parse_provider_config`.  Each field mirrors one optional
field of the row's `settings_config` JSON document. -/
structure ProviderConfig where
  env : Option EnvMap
  permissions : Option Permissions
  enabled_plugins : Option (List (Name × Bool))
  always_thinking_enabled : Option Bool
  api_timeout_ms : Option Nat
deriving DecidableEq, Repr

/-- One row of the `providers` query: `(id, name, settings_config,
created_at)`.  `settings_config` is modelled by its `serde_json` parse
result (`none` = unparsable). -/
structure Row where
  id : Name
  name : Name
  settings_config : Option ProviderConfig
  created_at : Int
deriving DecidableEq, Repr

/-- Model of `CcSwitchDb::parse_provider_config`: fails when `settings_config`
does not parse; otherwise builds a profile with the space-to-underscore
normalized name, the original row name as `display_name`, and provenance
`cc-switch`. -/
def parse_provider_config (name : Name) (settings_config : Option ProviderConfig)
    (created_at_ms : Int) : Except Err Profile :=
  match settings_config with
  | none => .error .ccSwitchReadError
  | some config =>
    .ok
      { name := norm name
        display_name := some name
        env := config.env.getD []
        permissions := config.permissions.getD ⟨none, none, none⟩
        enabled_plugins := config.enabled_plugins
        always_thinking_enabled := config.always_thinking_enabled
        api_timeout_ms := config.api_timeout_ms
        category := none
        source := some .ccSwitch
        created_at := created_at_ms
        updated_at := created_at_ms }

/-- Model of `CcSwitchDb::get_profiles`: rows whose `settings_config` fails to
parse are dropped silently. -/
def get_profiles (rows : List Row) : List Profile :=
  rows.filterMap
    (fun r => (parse_provider_config r.name r.settings_config r.created_at).toOption)

/-! ## `src/cli/commands/update_cmd.rs` — sync/merge engine -/

/-- The candidate as the merge loop inserts it: both `name` and
`display_name` are set to `name_with_underscores` (in both the replace
and the append branch of `update_profiles`). -/
def finalize (c : Profile) : Profile :=
  { c with name := norm c.name, display_name := some (norm c.name) }

/-- The match predicate of the merge loop:
`p.name == new_profile.name || p.name == name_with_underscores`. -/
def matchesB (pname : Name) (c : Profile) : Bool :=
  pname == c.name || pname == norm c.name

/-- One iteration of the merge loop of `update_profiles`: find the first
entry whose name equals the candidate's raw or normalized name; replace
it in place if found, append otherwise. -/
def step (res : List Profile) (c : Profile) : List Profile :=
  match res.findIdx? (fun p => matchesB p.name c) with
  | some idx => res.set idx (finalize c)
  | none => res ++ [finalize c]

/-- The whole merge loop: seed the result with the existing manual
profiles, then fold the candidates through `step`, in fetch order. -/
def mergeAll (seed : List Profile) (cands : List Profile) : List Profile :=
  cands.foldl step seed

/-- The three user-visible outcomes of the update command. -/
inductive UpdateOutcome where
  | dbNotFound
  | noProfiles
  | updated (n : Nat)
deriving DecidableEq, Repr

/-- Model of `update_profiles` from `src/cli/commands/update_cmd.rs`.
`dbExists` models `CcSwitchDb::exists()`; `rows` models the rows the
`providers` query returns. -/
def update_profiles (fs : FS) (dbExists : Bool) (rows : List Row) :
    Except Err (FS × UpdateOutcome) :=
  if !dbExists then .ok (fs, .dbNotFound)
  else
    let new_profiles := get_profiles rows
    if new_profiles.isEmpty then .ok (fs, .noProfiles)
    else
      let existing_profiles := load_profiles fs
      let manual_profiles :=
        existing_profiles.filter (fun p => p.source == some .manual)
      let updated_profiles := mergeAll manual_profiles new_profiles
      .ok (save_profiles fs updated_profiles, .updated updated_profiles.length)

/-! ## `src/cli/commands/rename_cmd.rs` -/

/-- The index rewrite of `rename_profile`: replace the first occurrence
of `old` (if any) by `new`, at the same position. -/
def replaceFirst (names : List Name) (old new : Name) : List Name :=
  match names.findIdx? (fun m => m == old) with
  | some idx => names.set idx new
  | none => names

/-- Model of `rename_profile` from `src/cli/commands/rename_cmd.rs`.  The
existence checks go through the tolerant `Storage::get_profile`; the
directory move, settings rewrite and index rewrite are direct filesystem
operations. -/
def rename_profile (fs : FS) (old_name new_name : Name) : Except Err FS :=
  match get_profile fs old_name with
  | .error e => .error e
  | .ok none => .error (.profileNotFound old_name)
  | .ok (some p) =>
    match get_profile fs new_name with
    | .error e => .error e
    | .ok (some _) => .error (.profileAlreadyExists new_name)
    | .ok none =>
      -- if the destination directory exists (orphaned data), remove it
      let dirs1 :=
        if (lookupDir fs.dirs new_name).isSome then dirsRemove fs.dirs new_name
        else fs.dirs
      -- if the old directory exists, fs::rename it to the new path
      let dirs2 :=
        match lookupDir dirs1 old_name with
        | some st => dirsSet (dirsRemove dirs1 old_name) new_name st
        | none => dirs1
      let p1 :=
        { p with
            name := new_name
            display_name :=
              if p.display_name.isSome then some new_name else p.display_name }
      -- rewrite settings.json under the new name
      let dirs3 := dirsSet dirs2 new_name (.good p1)
      -- update ccuse.json in place
      let names := load_profile_names fs
      .ok { index := some (replaceFirst names old_name new_name), dirs := dirs3 }

/-! ## `src/cli/commands/add_cmd.rs` — tail of the interactive add -/

/-- The tail of `add_profile` (the add command), starting after the
external editor ran and its output was read back:

* `edited` is the state of the settings file as the user left it (the
  command writes the raw edited content, not the merged profile);
* `parsed` is the result of deserializing the defaults-merged JSON
  document into a `Profile` (`none` = `serde` failure).

On a parse failure or an empty `env`, the settings file and the profile
directory are removed again and the command fails; otherwise the name
list is rebuilt from `Storage::load_profiles` plus the new name and
written to `ccuse.json`. -/
def add_cmd_tail (fs : FS) (name : Name) (edited : FileState)
    (parsed : Option Profile) : FS × Except Err Unit :=
  let fsW : FS := { fs with dirs := dirsSet fs.dirs name edited }
  match parsed with
  | none =>
    ({ fsW with dirs := dirsRemove fsW.dirs name }, .error .configError)
  | some profile =>
    if profile.env.isEmpty then
      ({ fsW with dirs := dirsRemove fsW.dirs name }, .error .configError)
    else
      let names := (load_profiles fsW).map (fun p => p.name) ++ [name]
      ({ fsW with index := some names }, .ok ())

/-! ## Proof-side reformulations -/

/-- Recursion-friendly restatement of `step`; proven equal to `step`
in `step_eq_stepRec` below and used only inside proofs. -/
def stepRec (res : List Profile) (c : Profile) : List Profile :=
  match res with
  | [] => [finalize c]
  | p :: rest =>
    if matchesB p.name c then finalize c :: rest else p :: stepRec rest c

/-- The replacement the specification's reading of the merge predicts for
one result-set entry: the first candidate whose raw or normalized name
equals the entry's name, finalized; the entry itself if no candidate
matches. -/
def replOf (cands : List Profile) (p : Profile) : Profile :=
  match cands.find? (fun c => matchesB p.name c) with
  | some c => finalize c
  | none => p

/-- Decides that candidate `c` matches no entry of `seed`. -/
def unmatchedIn (seed : List Profile) (c : Profile) : Bool :=
  !(seed.any (fun p => matchesB p.name c))

/-- The merge result as the specification describes it: the manual
profiles in their original positions, matched positions replaced in place
by the matching candidate, followed by the unmatched candidates appended
in fetch order. -/
def specMergeResult (seed cands : List Profile) : List Profile :=
  seed.map (replOf cands)
    ++ (cands.filter (unmatchedIn seed)).map finalize

/-! ## Concrete fixtures for counterexamples and witnesses -/

/-- A one-entry environment mapping. -/
def envKV : EnvMap := [("K".toList, "V".toList)]

/-- Another one-entry environment mapping, distinct from `envKV`. -/
def envKW : EnvMap := [("K".toList, "W".toList)]

/-- Empty permissions. -/
def permsNone : Permissions := ⟨none, none, none⟩

/-- A parsable `settings_config` carrying `envKV`. -/
def cfgKV : ProviderConfig := ⟨some envKV, none, none, none, none⟩

/-- A parsable `settings_config` carrying `envKW`. -/
def cfgKW : ProviderConfig := ⟨some envKW, none, none, none, none⟩

/-- A parsable `settings_config` with no `env` field at all. -/
def cfgNoEnv : ProviderConfig := ⟨none, none, none, none, none⟩

/-- The fresh store: no index file, no profile directories. -/
def fs0 : FS := ⟨none, []⟩

/-- A CC-Switch row named `"My Team"` (name containing a space). -/
def rowMyTeam : Row := ⟨"i1".toList, "My Team".toList, some cfgKV, 0⟩

/-- The profile the sync stores for `rowMyTeam`: note that
`display_name` is the underscored name, not the original one. -/
def c1stored : Profile :=
  ⟨"My_Team".toList, some ("My_Team".toList), envKV, permsNone,
    none, none, none, none, some .ccSwitch, 0, 0⟩

/-- Store state after syncing `rowMyTeam` into a fresh store. -/
def c1fs : FS :=
  ⟨some ["My_Team".toList], [("My_Team".toList, .good c1stored)]⟩

/-- A manually created profile named `"work"`. -/
def pWork : Profile :=
  ⟨"work".toList, none, envKV, permsNone,
    none, none, none, none, some .manual, 5, 5⟩

/-- A store holding exactly the manual profile `pWork`. -/
def fsWork : FS := ⟨some ["work".toList], [("work".toList, .good pWork)]⟩

/-- A CC-Switch row whose name collides with the manual profile `pWork`. -/
def rowWork : Row := ⟨"i2".toList, "work".toList, some cfgKV, 9⟩

/-- The synced profile that silently replaces `pWork`. -/
def c2stored : Profile :=
  ⟨"work".toList, some ("work".toList), envKV, permsNone,
    none, none, none, none, some .ccSwitch, 9, 9⟩

/-- Store state after syncing `rowWork` into `fsWork`. -/
def c2fs : FS := ⟨some ["work".toList], [("work".toList, .good c2stored)]⟩

/-- A CC-Switch row whose `settings_config` parses but has no `env`. -/
def rowNoEnv : Row := ⟨"i3".toList, "s".toList, some cfgNoEnv, 0⟩

/-- The synced profile stored for `rowNoEnv`: its `env` is empty. -/
def c3stored : Profile :=
  ⟨"s".toList, some ("s".toList), [], permsNone,
    none, none, none, none, some .ccSwitch, 0, 0⟩

/-- Store state after syncing `rowNoEnv` into a fresh store. -/
def c3fs : FS := ⟨some ["s".toList], [("s".toList, .good c3stored)]⟩

/-- A manual profile named `"a"`. -/
def profA : Profile :=
  ⟨"a".toList, none, envKV, permsNone,
    none, none, none, none, some .manual, 1, 1⟩

/-- A store whose index lists `"a"` and `"b"`, where only `"a"` has a
readable settings file: `"b"` is indexed but its directory is missing. -/
def fsAB : FS :=
  ⟨some ["a".toList, "b".toList], [("a".toList, .good profA)]⟩

/-- What `profA` becomes when renamed to `"b"`. -/
def c4renamed : Profile :=
  ⟨"b".toList, none, envKV, permsNone,
    none, none, none, none, some .manual, 1, 1⟩

/-- Store state after `rename_profile fsAB "a" "b"`: note the duplicated
index entry produced by renaming onto an indexed-but-unreadable name. -/
def c4fs : FS :=
  ⟨some ["b".toList, "b".toList], [("b".toList, .good c4renamed)]⟩

/-- A clean store holding only the readable profile `"a"` (used by the
rename success witness). -/
def fsA : FS := ⟨some ["a".toList], [("a".toList, .good profA)]⟩

/-- First of two CC-Switch rows sharing the name `"a"`. -/
def rowA1 : Row := ⟨"i4".toList, "a".toList, some cfgKV, 3⟩

/-- Second of two CC-Switch rows sharing the name `"a"`. -/
def rowA2 : Row := ⟨"i5".toList, "a".toList, some cfgKW, 4⟩

/-- The single profile resulting from syncing `rowA1` then `rowA2`:
the second candidate replaced the first in place. -/
def c7stored : Profile :=
  ⟨"a".toList, some ("a".toList), envKW, permsNone,
    none, none, none, none, some .ccSwitch, 4, 4⟩

/-- Store state after syncing `[rowA1, rowA2]` into a fresh store. -/
def c7fs : FS := ⟨some ["a".toList], [("a".toList, .good c7stored)]⟩

/-- A manual profile named `"alice"`. -/
def pAlice : Profile :=
  ⟨"alice".toList, none, envKV, permsNone,
    none, none, none, none, some .manual, 1, 1⟩

/-- The adapter's candidate for a row named `"Bob Team"`. -/
def pBobCand : Profile :=
  ⟨"Bob_Team".toList, some ("Bob Team".toList), envKV, permsNone,
    none, none, none, none, some .ccSwitch, 2, 2⟩

/-- The profile the adapter produces for `rowMyTeam`: normalized name,
original name kept as `display_name`. -/
def pMyTeamParsed : Profile :=
  ⟨"My_Team".toList, some ("My Team".toList), envKV, permsNone,
    none, none, none, none, some .ccSwitch, 0, 0⟩

/-- A row whose `settings_config` does not parse. -/
def rowBad : Row := ⟨"i6".toList, "x".toList, none, 0⟩

/-! ## Helper lemmas -/

lemma contains_iff {l : List Name} {n : Name} : l.contains n = true ↔ n ∈ l := by
  simp [List.contains, List.elem_iff]

lemma step_eq_stepRec (res : List Profile) (c : Profile) :
    step res c = stepRec res c := by
  induction res with
  | nil => rfl
  | cons p rest ih =>
    by_cases h : matchesB p.name c
    · simp [step, stepRec, List.findIdx?_cons, h]
    · simp only [step, stepRec, List.findIdx?_cons, h, if_false, Bool.false_eq_true,
        List.findIdx?_succ]
      cases hr : rest.findIdx? (fun q => matchesB q.name c) with
      | none =>
        simp only [step, hr] at ih
        simp [ih]
      | some j =>
        simp only [step, hr] at ih
        simp [ih, List.set]

lemma mergeAll_eq_foldl_stepRec (seed cands : List Profile) :
    mergeAll seed cands = cands.foldl stepRec seed := by
  unfold mergeAll
  induction cands generalizing seed with
  | nil => rfl
  | cons c cs ih => simp [List.foldl, step_eq_stepRec, ih]

lemma dirsSet_cons_eq {en : Name} {est : FileState} {l0 : List (Name × FileState)}
    {n : Name} {st : FileState} (h : (en == n) = true) :
    dirsSet ((en, est) :: l0) n st = dirsSet l0 n st := by
  simp only [dirsSet, List.filter_cons, h, Bool.not_true, Bool.false_eq_true, if_false]

lemma dirsSet_cons_ne {en : Name} {est : FileState} {l0 : List (Name × FileState)}
    {n : Name} {st : FileState} (h : (en == n) = false) :
    dirsSet ((en, est) :: l0) n st = (en, est) :: dirsSet l0 n st := by
  simp only [dirsSet, List.filter_cons, h, Bool.not_false, if_true, List.cons_append]

lemma dirsRemove_cons_eq {en : Name} {est : FileState} {l0 : List (Name × FileState)}
    {n : Name} (h : (en == n) = true) :
    dirsRemove ((en, est) :: l0) n = dirsRemove l0 n := by
  simp only [dirsRemove, List.filter_cons, h, Bool.not_true, Bool.false_eq_true, if_false]

lemma dirsRemove_cons_ne {en : Name} {est : FileState} {l0 : List (Name × FileState)}
    {n : Name} (h : (en == n) = false) :
    dirsRemove ((en, est) :: l0) n = (en, est) :: dirsRemove l0 n := by
  simp only [dirsRemove, List.filter_cons, h, Bool.not_false, if_true]

lemma lookupDir_cons_eq {en : Name} {est : FileState} {l0 : List (Name × FileState)}
    {m : Name} (h : (en == m) = true) :
    lookupDir ((en, est) :: l0) m = some est := by
  simp only [lookupDir, List.find?, h, Option.map]

lemma lookupDir_cons_ne {en : Name} {est : FileState} {l0 : List (Name × FileState)}
    {m : Name} (h : (en == m) = false) :
    lookupDir ((en, est) :: l0) m = lookupDir l0 m := by
  simp only [lookupDir, List.find?, h]

lemma lookupDir_dirsSet_self (l : List (Name × FileState)) (n : Name) (st : FileState) :
    lookupDir (dirsSet l n st) n = some st := by
  induction l with
  | nil =>
    simp only [dirsSet, List.filter_nil, List.nil_append]
    exact lookupDir_cons_eq (beq_self_eq_true n)
  | cons e l0 ih =>
    obtain ⟨en, est⟩ := e
    by_cases h : en = n
    · rw [dirsSet_cons_eq (beq_iff_eq.mpr h)]; exact ih
    · rw [dirsSet_cons_ne (beq_eq_false_iff_ne.mpr h),
        lookupDir_cons_ne (beq_eq_false_iff_ne.mpr h)]
      exact ih

lemma lookupDir_dirsSet_ne (l : List (Name × FileState)) (n m : Name) (st : FileState)
    (h : m ≠ n) : lookupDir (dirsSet l n st) m = lookupDir l m := by
  have hnm : (n == m) = false := beq_eq_false_iff_ne.mpr (fun hh => h hh.symm)
  induction l with
  | nil =>
    simp only [dirsSet, List.filter_nil, List.nil_append]
    rw [lookupDir_cons_ne hnm]
  | cons e l0 ih =>
    obtain ⟨en, est⟩ := e
    by_cases h1 : en = n
    · have hem : (en == m) = false := by
        apply beq_eq_false_iff_ne.mpr; rw [h1]; exact fun hh => h hh.symm
      rw [dirsSet_cons_eq (beq_iff_eq.mpr h1), lookupDir_cons_ne hem]
      exact ih
    · by_cases h2 : en = m
      · rw [dirsSet_cons_ne (beq_eq_false_iff_ne.mpr h1),
          lookupDir_cons_eq (beq_iff_eq.mpr h2), lookupDir_cons_eq (beq_iff_eq.mpr h2)]
      · rw [dirsSet_cons_ne (beq_eq_false_iff_ne.mpr h1),
          lookupDir_cons_ne (beq_eq_false_iff_ne.mpr h2),
          lookupDir_cons_ne (beq_eq_false_iff_ne.mpr h2)]
        exact ih

lemma lookupDir_dirsRemove_self (l : List (Name × FileState)) (n : Name) :
    lookupDir (dirsRemove l n) n = none := by
  induction l with
  | nil => rfl
  | cons e l0 ih =>
    obtain ⟨en, est⟩ := e
    by_cases h : en = n
    · rw [dirsRemove_cons_eq (beq_iff_eq.mpr h)]; exact ih
    · rw [dirsRemove_cons_ne (beq_eq_false_iff_ne.mpr h),
        lookupDir_cons_ne (beq_eq_false_iff_ne.mpr h)]
      exact ih

lemma lookupDir_dirsRemove_ne (l : List (Name × FileState)) (n m : Name)
    (h : m ≠ n) : lookupDir (dirsRemove l n) m = lookupDir l m := by
  induction l with
  | nil => rfl
  | cons e l0 ih =>
    obtain ⟨en, est⟩ := e
    by_cases h1 : en = n
    · have hem : (en == m) = false := by
        apply beq_eq_false_iff_ne.mpr; rw [h1]; exact fun hh => h hh.symm
      rw [dirsRemove_cons_eq (beq_iff_eq.mpr h1), lookupDir_cons_ne hem]
      exact ih
    · by_cases h2 : en = m
      · rw [dirsRemove_cons_ne (beq_eq_false_iff_ne.mpr h1),
          lookupDir_cons_eq (beq_iff_eq.mpr h2), lookupDir_cons_eq (beq_iff_eq.mpr h2)]
      · rw [dirsRemove_cons_ne (beq_eq_false_iff_ne.mpr h1),
          lookupDir_cons_ne (beq_eq_false_iff_ne.mpr h2),
          lookupDir_cons_ne (beq_eq_false_iff_ne.mpr h2)]
        exact ih

lemma get_profile_ok_some_iff {fs : FS} {n : Name} {p : Profile} :
    get_profile fs n = .ok (some p) ↔
      n ∈ load_profile_names fs ∧ lookupDir fs.dirs n = some (.good p) := by
  by_cases hm : n ∈ load_profile_names fs
  · have hc : (load_profile_names fs).contains n = true := contains_iff.mpr hm
    cases hd : lookupDir fs.dirs n with
    | none => simp [get_profile, load_profile_from_file, hc, hd, hm]
    | some st =>
      cases st <;> simp [get_profile, load_profile_from_file, hc, hd, hm]
  · have hc : (load_profile_names fs).contains n = false := by
      rw [← Bool.not_eq_true]; exact fun hh => hm (contains_iff.mp hh)
    simp [get_profile, hc, hm]

/-! ## Claim C5 -/

/-- C5: for every name, `get` returns absence (not an error) when the name
is not in the index; returns the parsed profile when the name is indexed
and its settings file parses; and returns absence rather than an error
when the name is indexed but the settings file is missing or corrupt. -/
theorem c5_get_profile_tolerant (fs : FS) (n : Name) :
    (n ∉ load_profile_names fs → get_profile fs n = .ok none)
    ∧ (∀ p : Profile, n ∈ load_profile_names fs →
        lookupDir fs.dirs n = some (.good p) → get_profile fs n = .ok (some p))
    ∧ (n ∈ load_profile_names fs →
        lookupDir fs.dirs n = none ∨ lookupDir fs.dirs n = some .absent ∨
          lookupDir fs.dirs n = some .corrupt →
        get_profile fs n = .ok none) := by
  refine ⟨?_, ?_, ?_⟩
  · intro hm
    have hc : (load_profile_names fs).contains n = false := by
      rw [← Bool.not_eq_true]; exact fun hh => hm (contains_iff.mp hh)
    simp only [get_profile, hc, Bool.not_false, if_true]
  · intro p hm hd
    exact get_profile_ok_some_iff.mpr ⟨hm, hd⟩
  · intro hm hd
    have hc : (load_profile_names fs).contains n = true := contains_iff.mpr hm
    rcases hd with hd | hd | hd <;>
      simp [get_profile, load_profile_from_file, hc, hd]

/-- Witness for C5: in the store `fsAB` (index `["a", "b"]`, only `"a"`
readable), an unindexed name, an indexed readable name, and an indexed
unreadable name. -/
theorem c5_get_profile_tolerant_witness :
    get_profile fsAB ("z".toList) = .ok none
    ∧ get_profile fsAB ("a".toList) = .ok (some profA)
    ∧ get_profile fsAB ("b".toList) = .ok none :=
  ⟨(c5_get_profile_tolerant fsAB ("z".toList)).1 (by decide),
   (c5_get_profile_tolerant fsAB ("a".toList)).2.1 profA (by decide) (by decide),
   (c5_get_profile_tolerant fsAB ("b".toList)).2.2 (by decide) (Or.inl (by decide))⟩

/-! ## Claim C6 -/

/-- C6: when the CC-Switch database is absent, or the fetched candidate
list is empty, the merge returns the store unchanged with an
informational outcome and no error. -/
theorem c6_update_noop (fs : FS) (rows : List Row) :
    update_profiles fs false rows = .ok (fs, .dbNotFound)
    ∧ (get_profiles rows = [] →
        update_profiles fs true rows = .ok (fs, .noProfiles)) := by
  constructor
  · rfl
  · intro h
    simp [update_profiles, h]

/-- Witness for C6: a store and a row list whose only row is unparsable,
so the candidate list is empty. -/
theorem c6_update_noop_witness :
    update_profiles fsWork true [rowBad] = .ok (fsWork, .noProfiles) :=
  (c6_update_noop fsWork [rowBad]).2 (by decide)

/-! ## Claim C9 -/

/-- C9: `remove_all_profiles` twice in a row: the second call is a no-op
on the store (the first one already emptied the index), and the store is
empty after the first call. -/
theorem c9_remove_all_idempotent (fs : FS) :
    remove_all_profiles (remove_all_profiles fs) = remove_all_profiles fs
    ∧ load_profile_names (remove_all_profiles fs) = [] :=
  ⟨rfl, rfl⟩

/-! ## Counterexamples -/

/-- Counterexample to C1: syncing the row named `"My Team"` stores a
profile whose `display_name` is the underscored `"My_Team"`, not the
original `"My Team"` (the merge loop overwrites the adapter's
`display_name`). -/
theorem c1_counterexample :
    update_profiles fs0 true [rowMyTeam] = .ok (c1fs, .updated 1)
    ∧ get_profile c1fs ("My_Team".toList) = .ok (some c1stored)
    ∧ c1stored.name = "My_Team".toList
    ∧ c1stored.display_name = some ("My_Team".toList)
    ∧ c1stored.display_name ≠ some ("My Team".toList) := by decide

/-- Counterexample to C2: the manual profile `"work"` is silently
replaced by the synced candidate of the same name. -/
theorem c2_counterexample :
    pWork.source = some .manual
    ∧ get_profile fsWork ("work".toList) = .ok (some pWork)
    ∧ update_profiles fsWork true [rowWork] = .ok (c2fs, .updated 1)
    ∧ get_profile c2fs ("work".toList) = .ok (some c2stored)
    ∧ c2stored ≠ pWork
    ∧ c2stored.source = some .ccSwitch := by decide

/-- Counterexample to C3: a synced profile created from a row whose
`settings_config` has no `env` field is stored and returned by `get`
with an empty `env`. -/
theorem c3_counterexample :
    update_profiles fs0 true [rowNoEnv] = .ok (c3fs, .updated 1)
    ∧ get_profile c3fs ("s".toList) = .ok (some c3stored)
    ∧ c3stored.env = [] := by decide

/-- Counterexample to C4: renaming `"a"` to `"b"` succeeds even though
`"b"` is already in the index (its settings file is unreadable, so the
tolerant `get`-based check passes), leaving a duplicated index entry. -/
theorem c4_counterexample :
    ("b".toList) ∈ load_profile_names fsAB
    ∧ rename_profile fsAB ("a".toList) ("b".toList) = .ok c4fs := by decide

/-- Counterexample to C7: two candidates with the same name: the second
replaces the first inside the result set, so only one profile results,
while the claim's decomposition appends both. -/
theorem c7_counterexample :
    (get_profiles [rowA1, rowA2]).length = 2
    ∧ update_profiles fs0 true [rowA1, rowA2] = .ok (c7fs, .updated 1)
    ∧ load_profiles c7fs = [c7stored]
    ∧ mergeAll [] (get_profiles [rowA1, rowA2])
        ≠ specMergeResult [] (get_profiles [rowA1, rowA2]) := by decide

/-! ## Claim C8 -/

lemma get_profile_of_not_indexed {fs : FS} {n : Name}
    (hc : (load_profile_names fs).contains n = false) :
    get_profile fs n = .ok none := by
  simp only [get_profile, hc, Bool.not_false, if_true]

/-- C8: after `add_profile` of `p` succeeds and `remove_profile p.name`
succeeds, `get_profile p.name` returns absence and the index no longer
contains `p.name`. -/
theorem c8_add_remove_get_absent (fs : FS) (p : Profile) (fs1 fs2 : FS)
    (hadd : add_profile fs p = .ok fs1)
    (hrem : remove_profile fs1 p.name = .ok fs2) :
    get_profile fs2 p.name = .ok none ∧ p.name ∉ load_profile_names fs2 := by
  by_cases hm : p.name ∈ load_profile_names fs
  · have hcb := contains_iff.mpr hm
    simp only [add_profile, hcb, if_true] at hadd
    exact absurd hadd (by simp)
  · have hcb : (load_profile_names fs).contains p.name = false := by
      rw [← Bool.not_eq_true]; exact fun hh => hm (contains_iff.mp hh)
    simp only [add_profile, hcb, Bool.false_eq_true, if_false,
      save_profile_to_file] at hadd
    have hfs1 : { index := some (load_profile_names fs ++ [p.name]),
                  dirs := dirsSet fs.dirs p.name (.good p) : FS } = fs1 := by
      simpa using hadd
    subst hfs1
    have hfilter : (load_profile_names fs ++ [p.name]).filter
        (fun m => !(m == p.name)) = load_profile_names fs := by
      rw [List.filter_append]
      have h1 : (load_profile_names fs).filter (fun m => !(m == p.name))
          = load_profile_names fs :=
        List.filter_eq_self.mpr (fun m hmm => by
          have hne : (m == p.name) = false :=
            beq_eq_false_iff_ne.mpr (fun he => hm (he ▸ hmm))
          simp [hne])
      have h2 : ([p.name] : List Name).filter (fun m => !(m == p.name)) = [] := by
        simp [List.filter_cons]
      rw [h1, h2, List.append_nil]
    have hnames1 : load_profile_names
        { index := some (load_profile_names fs ++ [p.name]),
          dirs := dirsSet fs.dirs p.name (.good p) : FS }
        = load_profile_names fs ++ [p.name] := rfl
    simp only [remove_profile, hnames1, hfilter] at hrem
    have hlen : ¬ ((load_profile_names fs).length
        = (load_profile_names fs ++ [p.name]).length) := by simp
    rw [if_neg hlen] at hrem
    have hfs2 : { index := some (load_profile_names fs),
                  dirs := dirsRemove (dirsSet fs.dirs p.name (.good p)) p.name : FS }
        = fs2 := by simpa using hrem
    subst hfs2
    constructor
    · exact get_profile_of_not_indexed hcb
    · exact hm

/-- Witness for C8: add the manual profile `"work"` to the fresh store,
then remove it again. -/
theorem c8_add_remove_get_absent_witness :
    get_profile ⟨some [], []⟩ ("work".toList) = .ok none
    ∧ ("work".toList) ∉ load_profile_names ⟨some [], []⟩ :=
  c8_add_remove_get_absent fs0 pWork fsWork ⟨some [], []⟩ (by decide) (by decide)

/-! ## Normalization and merge-membership lemmas -/

lemma norm_idem (s : Name) : norm (norm s) = norm s := by
  induction s with
  | nil => rfl
  | cons ch s ih =>
    simp only [norm, List.map_cons]
    have hf : (if (if ch = ' ' then '_' else ch) = ' ' then '_'
        else (if ch = ' ' then '_' else ch)) = (if ch = ' ' then '_' else ch) := by
      by_cases h : ch = ' '
      · rw [if_pos h]
        rw [if_neg (by decide : ¬ ('_' : Char) = ' ')]
      · rw [if_neg h, if_neg h]
    rw [hf]
    simp only [norm] at ih
    rw [ih]

lemma mem_stepRec {q : Profile} {res : List Profile} {c : Profile}
    (h : q ∈ stepRec res c) : q ∈ res ∨ q = finalize c := by
  induction res with
  | nil =>
    simp only [stepRec, List.mem_singleton] at h
    exact Or.inr h
  | cons p rest ih =>
    by_cases hp : matchesB p.name c = true
    · simp only [stepRec, hp, if_true] at h
      rcases List.mem_cons.mp h with h1 | h1
      · exact Or.inr h1
      · exact Or.inl (List.mem_cons_of_mem _ h1)
    · rw [stepRec, if_neg hp] at h
      rcases List.mem_cons.mp h with h1 | h1
      · exact Or.inl (h1 ▸ List.mem_cons_self _ _)
      · rcases ih h1 with h2 | h2
        · exact Or.inl (List.mem_cons_of_mem _ h2)
        · exact Or.inr h2

lemma mem_mergeAll {q : Profile} {seed cands : List Profile}
    (h : q ∈ mergeAll seed cands) :
    q ∈ seed ∨ ∃ c ∈ cands, q = finalize c := by
  rw [mergeAll_eq_foldl_stepRec] at h
  induction cands generalizing seed with
  | nil => exact Or.inl h
  | cons c cs ih =>
    simp only [List.foldl_cons] at h
    rcases ih h with hq | ⟨c1, hc1, he⟩
    · rcases mem_stepRec hq with hq2 | he
      · exact Or.inl hq2
      · exact Or.inr ⟨c, List.mem_cons_self _ _, he⟩
    · exact Or.inr ⟨c1, List.mem_cons_of_mem _ hc1, he⟩

/-! ## Claim C10 -/

/-- C10: every profile the adapter returns already carries the
space-to-underscore normalized name (so re-normalizing it changes
nothing) and the original row name as `display_name`; hence inside the
merge loop the raw-name disjunct of the match predicate coincides with
the normalized-name disjunct. -/
theorem c10_adapter_normalized (rows : List Row) (p : Profile)
    (hp : p ∈ get_profiles rows) :
    norm p.name = p.name
    ∧ (∃ r ∈ rows, p.name = norm r.name ∧ p.display_name = some r.name)
    ∧ (∀ q : Name, matchesB q p = (q == p.name)) := by
  obtain ⟨r, hr, hpr⟩ := List.mem_filterMap.mp hp
  cases hcfg : r.settings_config with
  | none => rw [hcfg] at hpr; simp [parse_provider_config, Except.toOption] at hpr
  | some config =>
    rw [hcfg] at hpr
    simp only [parse_provider_config, Except.toOption, Option.some.injEq] at hpr
    have hname : p.name = norm r.name := by rw [← hpr]
    have hdisp : p.display_name = some r.name := by rw [← hpr]
    have hidem : norm p.name = p.name := by rw [hname, norm_idem]
    refine ⟨hidem, ⟨r, hr, hname, hdisp⟩, fun q => ?_⟩
    simp only [matchesB, hidem, Bool.or_self]

/-- Witness for C10: the adapter's output for the row `"My Team"`. -/
theorem c10_adapter_normalized_witness :
    norm pMyTeamParsed.name = pMyTeamParsed.name
    ∧ (∃ r ∈ [rowMyTeam], pMyTeamParsed.name = norm r.name
        ∧ pMyTeamParsed.display_name = some r.name)
    ∧ (∀ q : Name, matchesB q pMyTeamParsed = (q == pMyTeamParsed.name)) :=
  c10_adapter_normalized [rowMyTeam] pMyTeamParsed (by decide)

/-! ## Claim C1 (amended) -/

/-- C1 (amended): the merge stores each fetched candidate with the
normalized name, and with `display_name` equal to that same normalized
name (not the pre-normalization name): every entry the merge inserts for
a candidate `c` is `finalize c`, and for a candidate parsed from a row
named `nm` both the name and the display name of `finalize c` are
`norm nm`. -/
theorem c1_sync_sets_underscored_display_name (nm : Name)
    (cfg : Option ProviderConfig) (t : Int) (p : Profile)
    (hp : parse_provider_config nm cfg t = .ok p) :
    (finalize p).name = norm nm
    ∧ (finalize p).display_name = some (norm nm)
    ∧ ∀ (seed cands : List Profile) (q : Profile),
        q ∈ mergeAll seed cands → q ∈ seed ∨ ∃ c ∈ cands, q = finalize c := by
  cases cfg with
  | none => simp [parse_provider_config] at hp
  | some config =>
    simp only [parse_provider_config, Except.ok.injEq] at hp
    have hname : p.name = norm nm := by rw [← hp]
    refine ⟨?_, ?_, fun seed cands q hq => mem_mergeAll hq⟩
    · show norm p.name = norm nm
      rw [hname, norm_idem]
    · show some (norm p.name) = some (norm nm)
      rw [hname, norm_idem]

/-- Witness for C1 (amended): the candidate parsed from the row
`"My Team"`. -/
theorem c1_sync_sets_underscored_display_name_witness :
    (finalize pMyTeamParsed).name = norm ("My Team".toList)
    ∧ (finalize pMyTeamParsed).display_name = some (norm ("My Team".toList))
    ∧ ∀ (seed cands : List Profile) (q : Profile),
        q ∈ mergeAll seed cands → q ∈ seed ∨ ∃ c ∈ cands, q = finalize c :=
  c1_sync_sets_underscored_display_name ("My Team".toList) (some cfgKV) 0
    pMyTeamParsed (by decide)

/-! ## Claim C2 (amended) -/

lemma stepRec_append_no_match {M T : List Profile} {c : Profile}
    (h : ∀ p ∈ M, matchesB p.name c = false) :
    stepRec (M ++ T) c = M ++ stepRec T c := by
  induction M with
  | nil => rfl
  | cons p M0 ih =>
    have hp : ¬ matchesB p.name c = true := by
      rw [h p (List.mem_cons_self _ _)]; exact Bool.false_ne_true
    simp only [List.cons_append, stepRec, if_neg hp, List.append_eq]
    rw [ih (fun q hq => h q (List.mem_cons_of_mem _ hq))]

lemma foldl_stepRec_keeps_seed {cands : List Profile} {M : List Profile}
    (h : ∀ c ∈ cands, ∀ p ∈ M, matchesB p.name c = false) :
    ∀ T : List Profile, ∃ tail, cands.foldl stepRec (M ++ T) = M ++ tail := by
  induction cands with
  | nil => exact fun T => ⟨T, rfl⟩
  | cons c cs ih =>
    intro T
    simp only [List.foldl_cons]
    rw [stepRec_append_no_match (h c (List.mem_cons_self _ _))]
    exact ih (fun c1 hc1 => h c1 (List.mem_cons_of_mem _ hc1)) (stepRec T c)

/-- C2 (amended): every manual profile survives the merge unchanged, in
store order, at the head of the result — provided no candidate's raw or
normalized name equals a manual profile's name (on such a collision the
code replaces the manual profile in place, see the counterexample). -/
theorem c2_manual_preserved_without_collision (fs : FS) (rows : List Row)
    (h : ∀ p ∈ (load_profiles fs).filter (fun q => q.source == some .manual),
        ∀ c ∈ get_profiles rows, matchesB p.name c = false) :
    ∃ tail,
      mergeAll ((load_profiles fs).filter (fun q => q.source == some .manual))
          (get_profiles rows)
        = (load_profiles fs).filter (fun q => q.source == some .manual) ++ tail := by
  rw [mergeAll_eq_foldl_stepRec]
  obtain ⟨tail, htail⟩ :=
    foldl_stepRec_keeps_seed (fun c hc p hp => h p hp c hc) ([] : List Profile)
  exact ⟨tail, by simpa using htail⟩

/-- Witness for C2 (amended): store with the manual profile `"work"`,
candidate `"My Team"` whose raw and normalized names differ from
`"work"`. -/
theorem c2_manual_preserved_without_collision_witness :
    ∃ tail,
      mergeAll ((load_profiles fsWork).filter (fun q => q.source == some .manual))
          (get_profiles [rowMyTeam])
        = (load_profiles fsWork).filter (fun q => q.source == some .manual)
            ++ tail :=
  c2_manual_preserved_without_collision fsWork [rowMyTeam] (by decide)

/-! ## Claim C3 (amended) -/

/-- C3 (amended): the manual add path accepts a profile for persistence
only if its `env` is non-empty; the invariant does not extend to synced
profiles (see the counterexample, where a synced profile with empty
`env` is stored and returned by `get`). -/
theorem c3_manual_add_requires_nonempty_env (fs : FS) (name : Name)
    (edited : FileState) (parsed : Option Profile)
    (h : (add_cmd_tail fs name edited parsed).2 = .ok ()) :
    ∃ p, parsed = some p ∧ p.env ≠ [] := by
  cases parsed with
  | none => simp [add_cmd_tail] at h
  | some p =>
    by_cases he : p.env.isEmpty = true
    · simp [add_cmd_tail, he] at h
    · exact ⟨p, rfl, fun hnil => he (by rw [hnil]; rfl)⟩

/-- Witness for C3 (amended): a successful manual add of `pWork`. -/
theorem c3_manual_add_requires_nonempty_env_witness :
    ∃ p, some pWork = some p ∧ p.env ≠ [] :=
  c3_manual_add_requires_nonempty_env fs0 ("work".toList) (.good pWork)
    (some pWork) (by decide)

/-! ## Claim C4 (amended) -/

/-- C4 (amended): `rename` fails with `NotFound` when the tolerant read
of `old` yields absence, fails with `AlreadyExists` when the tolerant
read of `new` yields a profile (so only when `new` is indexed AND its
settings file parses — an indexed-but-unreadable `new` does not stop the
rename, see the counterexample); otherwise it moves the profile
directory to `new` (removing the `old` directory), rewrites the settings
file with the name set to `new`, and replaces the first occurrence of
`old` by `new` in the index, in place. -/
theorem c4_rename_semantics (fs : FS) (old_name new_name : Name) :
    (get_profile fs old_name = .ok none →
      rename_profile fs old_name new_name = .error (.profileNotFound old_name))
    ∧ (∀ p q : Profile, get_profile fs old_name = .ok (some p) →
        get_profile fs new_name = .ok (some q) →
        rename_profile fs old_name new_name
          = .error (.profileAlreadyExists new_name))
    ∧ (∀ p : Profile, get_profile fs old_name = .ok (some p) →
        get_profile fs new_name = .ok none →
        ∃ fs1, rename_profile fs old_name new_name = .ok fs1
          ∧ lookupDir fs1.dirs new_name
              = some (.good { p with
                  name := new_name
                  display_name :=
                    if p.display_name.isSome then some new_name
                    else p.display_name })
          ∧ lookupDir fs1.dirs old_name = none
          ∧ fs1.index
              = some (replaceFirst (load_profile_names fs) old_name new_name)) := by
  refine ⟨?_, ?_, ?_⟩
  · intro h
    simp only [rename_profile, h]
  · intro p q hp hq
    simp only [rename_profile, hp, hq]
  · intro p hp hq
    have hne : old_name ≠ new_name := by
      intro he
      rw [he, hq] at hp
      simp at hp
    have hdir : lookupDir fs.dirs old_name = some (.good p) :=
      (get_profile_ok_some_iff.mp hp).2
    set d1 : List (Name × FileState) :=
      if (lookupDir fs.dirs new_name).isSome then dirsRemove fs.dirs new_name
      else fs.dirs with hd1
    have h1 : lookupDir d1 old_name = some (.good p) := by
      rw [hd1]
      split
      · rw [lookupDir_dirsRemove_ne _ _ _ hne]
        exact hdir
      · exact hdir
    have hrun : rename_profile fs old_name new_name = .ok
        { index := some (replaceFirst (load_profile_names fs) old_name new_name)
          dirs := dirsSet (dirsSet (dirsRemove d1 old_name) new_name (.good p))
            new_name (.good { p with
              name := new_name
              display_name :=
                if p.display_name.isSome then some new_name
                else p.display_name }) } := by
      simp only [rename_profile, hp, hq, ← hd1, h1]
    refine ⟨_, hrun, ?_, ?_, rfl⟩
    · exact lookupDir_dirsSet_self _ _ _
    · rw [lookupDir_dirsSet_ne _ _ _ _ hne, lookupDir_dirsSet_ne _ _ _ _ hne,
        lookupDir_dirsRemove_self]

/-- Witness for C4 (amended): the three branches at concrete stores —
renaming an absent profile, renaming onto a readable existing profile,
and a successful rename of `"a"` to `"b"` in a clean one-profile
store. -/
theorem c4_rename_semantics_witness :
    rename_profile fs0 ("x".toList) ("y".toList)
      = .error (.profileNotFound ("x".toList))
    ∧ rename_profile fsWork ("w2".toList) ("work".toList)
      = .error (.profileNotFound ("w2".toList))
    ∧ (∃ fs1, rename_profile fsA ("a".toList) ("b".toList) = .ok fs1
        ∧ lookupDir fs1.dirs ("b".toList)
            = some (.good { profA with
                name := "b".toList
                display_name :=
                  if profA.display_name.isSome then some ("b".toList)
                  else profA.display_name })
        ∧ lookupDir fs1.dirs ("a".toList) = none
        ∧ fs1.index
            = some (replaceFirst (load_profile_names fsA) ("a".toList)
                ("b".toList))) :=
  ⟨(c4_rename_semantics fs0 ("x".toList) ("y".toList)).1 (by decide),
   (c4_rename_semantics fsWork ("w2".toList) ("work".toList)).1 (by decide),
   (c4_rename_semantics fsA ("a".toList) ("b".toList)).2.2 profA (by decide)
     (by decide)⟩

/-! ## Claim C7 (amended) -/

lemma replOf_cons_no_match {cands : List Profile} {p c : Profile}
    (h : matchesB p.name c = false) : replOf (c :: cands) p = replOf cands p := by
  unfold replOf
  rw [List.find?_cons_of_neg _ (by rw [h]; exact Bool.false_ne_true)]

lemma replOf_finalize {c : Profile} {cands : List Profile}
    (h : ∀ c1 ∈ cands, matchesB (norm c.name) c1 = false) :
    replOf cands (finalize c) = finalize c := by
  have hn : cands.find? (fun c1 => matchesB (finalize c).name c1) = none :=
    List.find?_eq_none.mpr (fun c1 hc1 => by
      show ¬ matchesB (finalize c).name c1 = true
      have he : (finalize c).name = norm c.name := rfl
      rw [he, h c1 hc1]
      exact Bool.false_ne_true)
  unfold replOf
  rw [hn]

lemma stepRec_map_replOf {A : List Profile} {c : Profile} {cs : List Profile}
    (h3c : A.countP (fun p => matchesB p.name c) ≤ 1)
    (hcC : ∀ c1 ∈ cs, matchesB (norm c.name) c1 = false) :
    (stepRec A c).map (replOf cs)
      = A.map (replOf (c :: cs))
        ++ (if A.any (fun p => matchesB p.name c) then [] else [finalize c]) := by
  induction A with
  | nil =>
    simp only [stepRec, List.map_cons, List.map_nil, List.any_nil,
      Bool.false_eq_true, if_false, List.nil_append]
    rw [replOf_finalize hcC]
  | cons p A0 ih =>
    by_cases hp : matchesB p.name c = true
    · have hz : A0.countP (fun q => matchesB q.name c) = 0 := by
        rw [List.countP_cons, hp, if_pos rfl] at h3c
        omega
      have hall : ∀ q ∈ A0, matchesB q.name c = false := by
        intro q hq
        have hnq := List.countP_eq_zero.mp hz q hq
        cases hb : matchesB q.name c
        · rfl
        · exact absurd hb hnq
      simp only [stepRec, hp, if_true, List.map_cons, List.any_cons,
        Bool.true_or, List.append_nil]
      rw [replOf_finalize hcC]
      have hrp : replOf (c :: cs) p = finalize c := by
        unfold replOf
        rw [List.find?_cons_of_pos _ hp]
      rw [hrp]
      congr 1
      exact List.map_congr_left (fun q hq => (replOf_cons_no_match (hall q hq)).symm)
    · have hpf : matchesB p.name c = false := by
        cases hb : matchesB p.name c
        · rfl
        · exact absurd hb hp
      have h3c0 : A0.countP (fun q => matchesB q.name c) ≤ 1 := by
        rw [List.countP_cons, hpf] at h3c
        simpa using h3c
      rw [stepRec, if_neg hp]
      simp only [List.map_cons, List.any_cons, hpf, Bool.false_or]
      rw [ih h3c0, replOf_cons_no_match hpf, List.cons_append]

lemma stepRec_any_eq {A : List Profile} {c c1 : Profile}
    (hcross : ∀ p ∈ A, matchesB p.name c = true → matchesB p.name c1 = false)
    (hfin : matchesB (norm c.name) c1 = false) :
    (stepRec A c).any (fun p => matchesB p.name c1)
      = A.any (fun p => matchesB p.name c1) := by
  induction A with
  | nil =>
    simp only [stepRec, List.any_cons, List.any_nil]
    have he : (finalize c).name = norm c.name := rfl
    rw [he, hfin]
    rfl
  | cons p A0 ih =>
    by_cases hp : matchesB p.name c = true
    · simp only [stepRec, hp, if_true, List.any_cons]
      have he : (finalize c).name = norm c.name := rfl
      rw [he, hfin, hcross p (List.mem_cons_self _ _) hp]
    · rw [stepRec, if_neg hp]
      simp only [List.any_cons]
      rw [ih (fun q hq hmq => hcross q (List.mem_cons_of_mem _ hq) hmq)]

lemma stepRec_countP_eq {A : List Profile} {c c1 : Profile}
    (hcross : ∀ p ∈ A, matchesB p.name c = true → matchesB p.name c1 = false)
    (hfin : matchesB (norm c.name) c1 = false) :
    (stepRec A c).countP (fun p => matchesB p.name c1)
      = A.countP (fun p => matchesB p.name c1) := by
  induction A with
  | nil =>
    simp only [stepRec, List.countP_cons, List.countP_nil]
    have he : (finalize c).name = norm c.name := rfl
    rw [he, hfin]
    simp
  | cons p A0 ih =>
    by_cases hp : matchesB p.name c = true
    · simp only [stepRec, hp, if_true, List.countP_cons]
      have he : (finalize c).name = norm c.name := rfl
      rw [he, hfin, hcross p (List.mem_cons_self _ _) hp]
    · rw [stepRec, if_neg hp]
      rw [List.countP_cons, List.countP_cons]
      rw [ih (fun q hq hmq => hcross q (List.mem_cons_of_mem _ hq) hmq)]

lemma foldl_stepRec_decomp (cands : List Profile) : ∀ A : List Profile,
    cands.Pairwise (fun c c1 => matchesB (norm c.name) c1 = false) →
    (∀ c ∈ cands, A.countP (fun p => matchesB p.name c) ≤ 1) →
    (∀ p ∈ A, cands.countP (fun c => matchesB p.name c) ≤ 1) →
    cands.foldl stepRec A = specMergeResult A cands := by
  induction cands with
  | nil =>
    intro A _ _ _
    simp only [List.foldl_nil, specMergeResult, List.filter_nil, List.map_nil,
      List.append_nil]
    have hid : A.map (replOf []) = A.map id := List.map_congr_left (fun p _ => rfl)
    rw [hid, List.map_id]
  | cons c cs ih =>
    intro A hC h3 h4
    have hhead : ∀ c1 ∈ cs, matchesB (norm c.name) c1 = false :=
      (List.pairwise_cons.mp hC).1
    have hCtail := (List.pairwise_cons.mp hC).2
    have hcross : ∀ c1 ∈ cs, ∀ p ∈ A,
        matchesB p.name c = true → matchesB p.name c1 = false := by
      intro c1 hc1 p hpA hpc
      cases hb : matchesB p.name c1
      · rfl
      · exfalso
        have h4p := h4 p hpA
        rw [List.countP_cons, hpc, if_pos rfl] at h4p
        have hpos : 0 < cs.countP (fun c2 => matchesB p.name c2) :=
          List.countP_pos_iff.mpr ⟨c1, hc1, hb⟩
        omega
    have h3s : ∀ c1 ∈ cs,
        (stepRec A c).countP (fun p => matchesB p.name c1) ≤ 1 := by
      intro c1 hc1
      rw [stepRec_countP_eq (hcross c1 hc1) (hhead c1 hc1)]
      exact h3 c1 (List.mem_cons_of_mem _ hc1)
    have h4s : ∀ q ∈ stepRec A c,
        cs.countP (fun c2 => matchesB q.name c2) ≤ 1 := by
      intro q hq
      rcases mem_stepRec hq with hqA | hqe
      · have hle := h4 q hqA
        rw [List.countP_cons] at hle
        omega
      · rw [hqe]
        show cs.countP (fun c2 => matchesB (norm c.name) c2) ≤ 1
        have hz : cs.countP (fun c2 => matchesB (norm c.name) c2) = 0 :=
          List.countP_eq_zero.mpr (fun c2 hc2 => by
            rw [hhead c2 hc2]; exact Bool.false_ne_true)
        exact le_of_eq_of_le hz (Nat.zero_le 1)
    have IH := ih (stepRec A c) hCtail h3s h4s
    simp only [List.foldl_cons]
    rw [IH]
    unfold specMergeResult
    rw [stepRec_map_replOf (h3 c (List.mem_cons_self _ _)) hhead]
    have hfeq : cs.filter (unmatchedIn (stepRec A c))
        = cs.filter (unmatchedIn A) :=
      List.filter_congr (fun c1 hc1 => by
        unfold unmatchedIn
        rw [stepRec_any_eq (hcross c1 hc1) (hhead c1 hc1)])
    rw [hfeq, List.filter_cons]
    by_cases hb : A.any (fun p => matchesB p.name c) = true
    · have hu : unmatchedIn A c = false := by
        unfold unmatchedIn
        rw [hb]
        rfl
      rw [hb, hu]
      simp
    · have hbf : A.any (fun p => matchesB p.name c) = false := by
        cases hx : A.any (fun p => matchesB p.name c)
        · rfl
        · exact absurd hx hb
      have hu : unmatchedIn A c = true := by
        unfold unmatchedIn
        rw [hbf]
        rfl
      rw [hbf, hu]
      simp

/-- C7 (amended): provided no two candidates' raw or normalized names
collide with each other, each candidate matches at most one seed entry,
and each seed entry is matched by at most one candidate, the merge
result is exactly the claim's decomposition (`specMergeResult`): the
seed profiles in their original positions, matched positions replaced in
place by the matching candidate, then the unmatched candidates appended
in fetch order — and the index written by `save_profiles` is exactly the
result's name list in result order.  Without those provisos the
decomposition fails (see the counterexample: a later candidate can match
a previously appended candidate and replace it instead of being
appended). -/
theorem c7_merge_decomposition (fs : FS) (seed cands : List Profile)
    (hC : cands.Pairwise (fun c c1 => matchesB (norm c.name) c1 = false))
    (h3 : ∀ c ∈ cands, seed.countP (fun p => matchesB p.name c) ≤ 1)
    (h4 : ∀ p ∈ seed, cands.countP (fun c => matchesB p.name c) ≤ 1) :
    mergeAll seed cands = specMergeResult seed cands
    ∧ (save_profiles fs (mergeAll seed cands)).index
        = some ((mergeAll seed cands).map (fun p => p.name)) := by
  constructor
  · rw [mergeAll_eq_foldl_stepRec]
    exact foldl_stepRec_decomp cands seed hC h3 h4
  · rfl

/-- Witness for C7 (amended): the spec's end-to-end scenario — manual
profile `"alice"`, candidate `"Bob Team"`. -/
theorem c7_merge_decomposition_witness :
    mergeAll [pAlice] [pBobCand] = specMergeResult [pAlice] [pBobCand]
    ∧ (save_profiles fs0 (mergeAll [pAlice] [pBobCand])).index
        = some ((mergeAll [pAlice] [pBobCand]).map (fun p => p.name)) :=
  c7_merge_decomposition fs0 [pAlice] [pBobCand] (by decide) (by decide)
    (by decide)

end Ccuse
